import Mathlib

/-!
Verification of the subscription / mute-state core of tshigapov/alertmanager-bot.

Shallow embedding of the Go sources:
  * pkg/telegram/chat_info.go : `ChatInfo` and its mutation methods
  * pkg/telegram/chats.go     : `ChatStore` operations over a libkv backend
  * pkg/telegram/bot.go       : `arrayDifference`, `contains`, `truncateMessage`
                                and the webhook fan-out loop of `sendWebhook`

Modelling conventions:
  * Go strings are Lean `String`s; byte-level operations (`truncateMessage`)
    work on `List Nat` holding the byte values, since Go indexes strings by byte.
  * `telebot.Chat` is represented by its `ID` (an `Int`): the kv store keys chat
    records by `c.ID`, so records in the store are distinguished exactly by ID.
  * The libkv store is an association list from chat ID to the stored record;
    `Put` overwrites the value under an existing key.
  * JSON marshal / unmarshal of chat records is the identity on the record
    (these records are plain structs of strings, for which Go round-trips);
    the one place where a marshal error path matters behaviourally
    (`AddMessage`) takes the marshal outcome as an explicit boolean.
  * Wall-clock times and durations in minutes are rationals (`Rat`), standing
    in for Go float64 `Duration.Minutes()` values.
  * Go map iteration order is unspecified; `getUniqueStrings` is modelled with
    a deterministic deduplication and every theorem below uses only the set of
    members of its output, never its order.
-/

namespace AlertmanagerBot

/-- bot.go `contains`: linear scan, `strings.Compare(v, value) == 0` is string
equality. -/
def contains (values : List String) (value : String) : Bool :=
  values.any (fun v => v == value)

/-- bot.go `arrayDifference`: builds a membership set from `b`, keeps the
elements of `a` that are not in it, preserving the order of `a`. -/
def arrayDifference (a b : List String) : List String :=
  a.filter (fun x => !(contains b x))

/-- chat_info.go `getUniqueStrings`: collects the distinct members of `values`.
The Go code returns them in Go map iteration order, which is unspecified;
the model fixes one deduplicated enumeration.  All theorems use only the set
of members of the result. -/
def getUniqueStrings (values : List String) : List String :=
  values.dedup

/-- chat_info.go `ChatInfo`.  `Chat *telebot.Chat` is represented by its ID. -/
structure ChatInfo where
  ChatID : Int
  AlertEnvironments : List String
  AlertProjects : List String
  MutedEnvironments : List String
  MutedProjects : List String
deriving DecidableEq, Repr

/-- The index the Go pattern `var index int; for i, v := range xs { if v == t
{ index = i; break } }` leaves in `index`: the first match, or 0 if none. -/
def findIdxOpt : List String → String → Option Nat
  | [], _ => none
  | x :: rest, t => if x == t then some 0 else (findIdxOpt rest t).map (· + 1)

/-- chat_info.go `UnmuteEnvironment`.  The Go body removes the element at
`index` via `append(muted[:index], muted[index+1:]...)`; when the tag is not
found `index` keeps its zero value.  The slice expression `muted[index+1:]`
panics when `index+1 > len(muted)` (i.e. the muted list is empty), modelled
as `none`. -/
def ChatInfo.UnmuteEnvironment (ch : ChatInfo) (env : String) (allEnvs : List String) :
    Option ChatInfo :=
  let index := (findIdxOpt ch.MutedEnvironments env).getD 0
  if index + 1 ≤ ch.MutedEnvironments.length then
    let muted := ch.MutedEnvironments.take index ++ ch.MutedEnvironments.drop (index + 1)
    some { ch with
      MutedEnvironments := muted
      AlertEnvironments := arrayDifference allEnvs muted }
  else
    none

/-- chat_info.go `UnmuteProject`: same shape as `UnmuteEnvironment` on the
project fields. -/
def ChatInfo.UnmuteProject (ch : ChatInfo) (pr : String) (allPrs : List String) :
    Option ChatInfo :=
  let index := (findIdxOpt ch.MutedProjects pr).getD 0
  if index + 1 ≤ ch.MutedProjects.length then
    let muted := ch.MutedProjects.take index ++ ch.MutedProjects.drop (index + 1)
    some { ch with
      MutedProjects := muted
      AlertProjects := arrayDifference allPrs muted }
  else
    none

/-- chat_info.go `MuteEnvironments`. -/
def ChatInfo.MuteEnvironments (ch : ChatInfo) (envsToMute allEnvs : List String) : ChatInfo :=
  let muted := getUniqueStrings (ch.MutedEnvironments ++ envsToMute)
  { ch with
    MutedEnvironments := muted
    AlertEnvironments := arrayDifference allEnvs muted }

/-- chat_info.go `MuteProjects`. -/
def ChatInfo.MuteProjects (ch : ChatInfo) (prsToMute allPrs : List String) : ChatInfo :=
  let muted := getUniqueStrings (ch.MutedProjects ++ prsToMute)
  { ch with
    MutedProjects := muted
    AlertProjects := arrayDifference allPrs muted }

/-! ### ChatStore (chats.go), chat records

The libkv backend under `telegram/chats/<id>` is an association list from
chat ID to record; `Put` overwrites an existing key. -/

/-- libkv `Put` under a chat-record key: overwrite if the key exists,
append otherwise. -/
def kvPut : List (Int × ChatInfo) → Int → ChatInfo → List (Int × ChatInfo)
  | [], k, v => [(k, v)]
  | (k1, v1) :: rest, k, v =>
      if k1 == k then (k, v) :: rest else (k1, v1) :: kvPut rest k v

/-- libkv `Get` under a chat-record key. -/
def kvGet : List (Int × ChatInfo) → Int → Option ChatInfo
  | [], _ => none
  | (k1, v1) :: rest, k => if k1 == k then some v1 else kvGet rest k

/-- The record literal chats.go `AddChat` builds: alert sets start as the full
universes, muted sets start empty. -/
def newChatRecord (c : Int) (allEnvs allPrs : List String) : ChatInfo :=
  { ChatID := c
    AlertEnvironments := allEnvs
    AlertProjects := allPrs
    MutedEnvironments := []
    MutedProjects := [] }

/-- chats.go `AddChat`: marshal the fresh record and `Put` it under
`telegram/chats/<c.ID>`. -/
def AddChat (db : List (Int × ChatInfo)) (c : Int) (allEnvs allPrs : List String) :
    List (Int × ChatInfo) :=
  kvPut db c (newChatRecord c allEnvs allPrs)

/-- chats.go `GetChatInfo`: `Get` the key for `c.ID` and unmarshal. -/
def GetChatInfo (db : List (Int × ChatInfo)) (c : Int) : Option ChatInfo :=
  kvGet db c

/-! ### Message records (chats.go), sweep and AddMessage

`telebot.Message` is modelled by its ID, chat ID and send time; the whole
outstanding list is stored under the single key `telegram/messages`.
Times are in minutes, as rationals (Go computes `Duration.Minutes()` as
float64 on the difference of wall-clock instants). -/

structure MessageRec where
  id : Int
  chatId : Int
  sentAt : Rat
deriving DecidableEq, Repr

/-- chats.go `GetAllMessages` (success path): unmarshal the stored list; a
missing `telegram/messages` key is the `stored = []` case. -/
def GetAllMessages (stored : List MessageRec) : List MessageRec :=
  stored

/-- chats.go `AddMessage`.  `marshalOk` is the outcome of
`json.Marshal(messages)`: on marshal failure the Go body executes
`return nil` — a nil error — without performing the `Put`, so the store is
left unchanged.  The result is (returned error, stored list after the call);
`none` is a nil error. -/
def AddMessage (stored : List MessageRec) (m : MessageRec) (marshalOk : Bool) :
    Option String × List MessageRec :=
  let messages := GetAllMessages stored
  let appended := messages ++ [m]
  if marshalOk then (none, appended) else (none, stored)

/-- chats.go `GetMessagesForPeriodInMinutes`: one pass over the stored list,
splitting on `currentTime.Sub(msg.Time()).Minutes() >= minutes`; the kept
messages are `Put` back (they become the new stored list) and the old ones
are returned.  Result: (messagesToDelete — returned, messagesToSave — the new
stored list). -/
def GetMessagesForPeriodInMinutes (stored : List MessageRec) (now minutes : Rat) :
    List MessageRec × List MessageRec :=
  let messagesToDelete := stored.filter (fun msg => decide (minutes ≤ now - msg.sentAt))
  let messagesToSave := stored.filter (fun msg => !(decide (minutes ≤ now - msg.sentAt)))
  (messagesToDelete, messagesToSave)

/-! ### Webhook fan-out (bot.go `sendWebhook`)

One `case w := <-webhooks` iteration.  An alert is modelled by its two label
lookups (`alert.Labels["environment"]` / `alert.Labels["project"]`, with `""`
for an absent key) plus a fingerprint distinguishing alerts of the batch.
The accumulator `receiversAndMessages` maps a chat to the alerts gathered for
it; the Go map is keyed by the `telebot.Chat` value, which the store keys by
ID, so the model keys by chat ID. -/

structure Alert where
  fingerprint : Nat
  labelEnvironment : String
  labelProject : String
deriving DecidableEq, Repr

/-- The per-dimension resolution in `sendWebhook`: a label value outside the
configured universe is coerced to the sentinel `"other"`. -/
def resolveTag (univ : List String) (label : String) : String :=
  if contains univ label then label else "other"

/-- The eligibility test of the inner chat loop: the chat's alert sets must
contain both resolved tags (conjunction). -/
def eligible (ch : ChatInfo) (environments projects : List String) (a : Alert) : Bool :=
  contains ch.AlertEnvironments (resolveTag environments a.labelEnvironment) &&
  contains ch.AlertProjects (resolveTag projects a.labelProject)

/-- The inner `for _, chatInfo := range chatInfos` loop for one alert: each
eligible chat gets the alert consed in front of its previously accumulated
alerts (`data.Alerts` starts as `[alert]` and the earlier alerts are appended
behind it). -/
def processAlert (environments projects : List String) (chatInfos : List ChatInfo)
    (acc : Int → List Alert) (a : Alert) : Int → List Alert :=
  chatInfos.foldl
    (fun acc ch =>
      if eligible ch environments projects a then
        fun c => if c == ch.ChatID then a :: acc ch.ChatID else acc c
      else acc)
    acc

/-- One iteration of the `for _, alert := range w.Alerts` loop.  The body
calls `b.chats.List()` here, inside the per-alert loop (bot.go:340), so the
second component counts one full chat-list read per alert. -/
def sendWebhookStep (environments projects : List String) (store : List ChatInfo)
    (st : (Int → List Alert) × Nat) (alert : Alert) : (Int → List Alert) × Nat :=
  let chatInfos := store
  (processAlert environments projects chatInfos st.1 alert, st.2 + 1)

/-- The alert-accumulation phase of `sendWebhook` for one webhook batch:
fold the per-alert step over the batch, starting from the empty
`receiversAndMessages` map and zero store reads.  Result: (accumulated
alerts per chat ID, number of `b.chats.List()` calls performed). -/
def sendWebhookBatch (environments projects : List String) (store : List ChatInfo)
    (alerts : List Alert) : (Int → List Alert) × Nat :=
  alerts.foldl (sendWebhookStep environments projects store) ⟨fun _ => [], 0⟩

/-! ### Message truncation (bot.go `truncateMessage`)

Byte-level: the message is a list of byte values; 10 is the newline byte. -/

/-- `strings.LastIndex(s, "\n\n")` on a byte list: index of the last
occurrence of two consecutive newline bytes, `none` when there is none
(Go returns -1). -/
def lastIndexNNAux : List Nat → Nat → Option Nat → Option Nat
  | x :: y :: rest, i, best =>
      lastIndexNNAux (y :: rest) (i + 1) (if x == 10 && y == 10 then some i else best)
  | _, _, best => best

def lastDoubleNewline (s : List Nat) : Option Nat :=
  lastIndexNNAux s 0 none

/-- The bytes of the appended marker `"\n<b>[SNIP]</b>"`. -/
def snip : List Nat :=
  [10, 60, 98, 62, 91, 83, 78, 73, 80, 93, 60, 47, 98, 62]

/-- The bytes of the fixed placeholder text bot.go substitutes when no usable
double-newline boundary exists (byte 39 is an apostrophe). -/
def messageTooLong : List Nat :=
  [77, 101, 115, 115, 97, 103, 101, 32, 105, 115, 32, 116, 111, 111, 32,
   108, 111, 110, 103, 46, 46, 46, 32, 99, 97, 110, 39, 116, 32, 115, 101,
   110, 100, 46, 46]

/-- bot.go `truncateMessage`: messages over 4095 bytes are cut at the last
double newline found in the first 4080 bytes when its index exceeds 1, with
the snip marker appended; otherwise the fixed placeholder is returned;
shorter messages pass through unchanged. -/
def truncateMessage (s : List Nat) : List Nat :=
  if 4095 < s.length then
    match lastDoubleNewline (s.take 4080) with
    | some i => if 1 < i then s.take i ++ snip else messageTooLong
    | none => messageTooLong
  else s

/-! ### The ChatRecord invariant and concrete fixtures used by the theorems -/

/-- The ChatRecord invariant of spec §3: the alert sets are the set
differences of the universes and the muted sets, and the muted sets hold no
duplicates. -/
def chatInvariant (ch : ChatInfo) (allEnvs allPrs : List String) : Prop :=
  ch.AlertEnvironments.toFinset = allEnvs.toFinset \ ch.MutedEnvironments.toFinset ∧
  ch.MutedEnvironments.Nodup ∧
  ch.AlertProjects.toFinset = allPrs.toFinset \ ch.MutedProjects.toFinset ∧
  ch.MutedProjects.Nodup

instance (ch : ChatInfo) (allEnvs allPrs : List String) :
    Decidable (chatInvariant ch allEnvs allPrs) := by
  unfold chatInvariant
  infer_instance

/-- A chat record with two muted environments and two muted projects, used to
exhibit the behaviour of unmuting an absent tag. -/
def chBug : ChatInfo :=
  { ChatID := 9
    AlertEnvironments := ["c"]
    AlertProjects := ["c"]
    MutedEnvironments := ["a", "b"]
    MutedProjects := ["a", "b"]}

/-- A record over universes `["a", "b"]` / `["p", "q"]` with one muted tag in
each dimension, satisfying the invariant. -/
def chW2 : ChatInfo :=
  { ChatID := 7
    AlertEnvironments := ["b"]
    AlertProjects := ["q"]
    MutedEnvironments := ["a"]
    MutedProjects := ["p"]}

/-- A subscribed chat accepting environment `"e"` and project `"p"`. -/
def chFan : ChatInfo :=
  { ChatID := 1
    AlertEnvironments := ["e"]
    AlertProjects := ["p"]
    MutedEnvironments := []
    MutedProjects := []}

def aFan1 : Alert := { fingerprint := 1, labelEnvironment := "e", labelProject := "p" }

def aFan2 : Alert := { fingerprint := 2, labelEnvironment := "e", labelProject := "p" }

def m10 : MessageRec := { id := 1, chatId := 2, sentAt := 0 }

/-- A 5002-byte message starting with a double newline and containing no
other double newline. -/
def cex6 : List Nat := 10 :: 10 :: List.replicate 5000 97

/-- A 5102-byte message whose only double newline starts at byte 100. -/
def w6 : List Nat := List.replicate 100 97 ++ 10 :: 10 :: List.replicate 5000 98

/-! ### Basic lemmas about the list helpers -/

theorem contains_eq_true_iff (l : List String) (v : String) :
    contains l v = true ↔ v ∈ l := by
  simp [contains]

theorem contains_eq_false_iff (l : List String) (v : String) :
    contains l v = false ↔ v ∉ l := by
  simp only [contains]
  rw [List.any_eq_false]
  constructor
  · intro h hv
    exact (h v hv) (by simp)
  · intro h x hx
    simp only [beq_iff_eq]
    intro he
    subst he
    exact h hx

theorem mem_arrayDifference (a b : List String) (x : String) :
    x ∈ arrayDifference a b ↔ x ∈ a ∧ x ∉ b := by
  simp [arrayDifference, List.mem_filter, contains_eq_false_iff]

theorem toFinset_arrayDifference (a b : List String) :
    (arrayDifference a b).toFinset = a.toFinset \ b.toFinset := by
  ext x
  simp [mem_arrayDifference, Finset.mem_sdiff]

theorem mem_getUniqueStrings (l : List String) (x : String) :
    x ∈ getUniqueStrings l ↔ x ∈ l :=
  List.mem_dedup

theorem nodup_getUniqueStrings (l : List String) : (getUniqueStrings l).Nodup :=
  List.nodup_dedup l

theorem nodup_take_append_drop (l : List String) (i : Nat) (h : l.Nodup) :
    (l.take i ++ l.drop (i + 1)).Nodup := by
  have h1 : List.Sublist (l.drop (i + 1)) (l.drop i) := by
    have h2 := List.drop_sublist 1 (l.drop i)
    rw [List.drop_drop] at h2
    simpa [Nat.add_comm] using h2
  have h3 := h1.append_left (l.take i)
  rw [List.take_append_drop] at h3
  exact h.sublist h3

/-! ### C1 / C2: mute-state invariants and the unmute bug -/

/-- C1: unmuting a tag that is not muted is NOT a no-op in the code.  With
muted lists `["a", "b"]` and absent tag `"c"`, `UnmuteEnvironment` /
`UnmuteProject` leave `index` at its zero default and remove the first muted
element, changing both the muted and the alert sets; on an empty muted list
the removal panics (modelled as `none`).  The spec (§4.2, §9) states the
intended behaviour is a no-op and flags this as the positional-index removal
bug. -/
theorem C1_unmute_absent_not_noop :
    ("c" ∉ chBug.MutedEnvironments ∧
      (chBug.UnmuteEnvironment "c" ["a", "b", "c"]).map ChatInfo.MutedEnvironments =
        some ["b"] ∧
      (chBug.UnmuteEnvironment "c" ["a", "b", "c"]).map ChatInfo.AlertEnvironments =
        some ["a", "c"] ∧
      some ["b"] ≠ some chBug.MutedEnvironments ∧
      some ["a", "c"] ≠ some chBug.AlertEnvironments) ∧
    ("c" ∉ chBug.MutedProjects ∧
      (chBug.UnmuteProject "c" ["a", "b", "c"]).map ChatInfo.MutedProjects =
        some ["b"] ∧
      some ["b"] ≠ some chBug.MutedProjects) ∧
    (newChatRecord 9 ["a"] ["a"]).UnmuteEnvironment "c" ["a"] = none ∧
    (newChatRecord 9 ["a"] ["a"]).UnmuteProject "c" ["a"] = none := by
  decide

theorem chatInvariant_muteEnvironments (ch : ChatInfo) (toMute envs prs : List String)
    (hinv : chatInvariant ch envs prs) :
    chatInvariant (ch.MuteEnvironments toMute envs) envs prs := by
  obtain ⟨_, _, hprA, hprN⟩ := hinv
  refine ⟨?_, ?_, hprA, hprN⟩
  · simp [ChatInfo.MuteEnvironments, toFinset_arrayDifference]
  · exact nodup_getUniqueStrings _

theorem chatInvariant_muteProjects (ch : ChatInfo) (toMute envs prs : List String)
    (hinv : chatInvariant ch envs prs) :
    chatInvariant (ch.MuteProjects toMute prs) envs prs := by
  obtain ⟨henvA, henvN, _, _⟩ := hinv
  refine ⟨henvA, henvN, ?_, ?_⟩
  · simp [ChatInfo.MuteProjects, toFinset_arrayDifference]
  · exact nodup_getUniqueStrings _

theorem chatInvariant_unmuteEnvironment (ch ch1 : ChatInfo) (env : String)
    (envs prs : List String) (hinv : chatInvariant ch envs prs)
    (h1 : ch.UnmuteEnvironment env envs = some ch1) :
    chatInvariant ch1 envs prs := by
  obtain ⟨_, henvN, hprA, hprN⟩ := hinv
  simp only [ChatInfo.UnmuteEnvironment] at h1
  split at h1
  · obtain rfl := Option.some.inj h1
    refine ⟨?_, ?_, hprA, hprN⟩
    · simp [toFinset_arrayDifference]
    · exact nodup_take_append_drop _ _ henvN
  · exact absurd h1 (by simp)

theorem chatInvariant_unmuteProject (ch ch2 : ChatInfo) (pr : String)
    (envs prs : List String) (hinv : chatInvariant ch envs prs)
    (h2 : ch.UnmuteProject pr prs = some ch2) :
    chatInvariant ch2 envs prs := by
  obtain ⟨henvA, henvN, _, hprN⟩ := hinv
  simp only [ChatInfo.UnmuteProject] at h2
  split at h2
  · obtain rfl := Option.some.inj h2
    refine ⟨henvA, henvN, ?_, ?_⟩
    · simp [toFinset_arrayDifference]
    · exact nodup_take_append_drop _ _ hprN
  · exact absurd h2 (by simp)

/-- C2: every completed mutation called with the current universes leaves the
record satisfying the derived-set invariant — each alert set equals the
corresponding universe minus the muted set, as sets, and the muted sets are
duplicate-free.  `AddChat` establishes the invariant unconditionally; each
mute/unmute re-establishes it from a record satisfying it (the unmute
operations are given by their completed, non-panicking runs `h1`, `h2`). -/
theorem C2_mutation_invariant (c : Int) (envs prs toMuteE toMuteP : List String)
    (env pr : String) (ch ch1 ch2 : ChatInfo)
    (hinv : chatInvariant ch envs prs)
    (h1 : ch.UnmuteEnvironment env envs = some ch1)
    (h2 : ch.UnmuteProject pr prs = some ch2) :
    chatInvariant (newChatRecord c envs prs) envs prs ∧
    chatInvariant (ch.MuteEnvironments toMuteE envs) envs prs ∧
    chatInvariant (ch.MuteProjects toMuteP prs) envs prs ∧
    chatInvariant ch1 envs prs ∧
    chatInvariant ch2 envs prs := by
  refine ⟨?_, ?_, ?_, ?_, ?_⟩
  · refine ⟨?_, List.nodup_nil, ?_, List.nodup_nil⟩ <;> simp [newChatRecord]
  · exact chatInvariant_muteEnvironments ch toMuteE envs prs hinv
  · exact chatInvariant_muteProjects ch toMuteP envs prs hinv
  · exact chatInvariant_unmuteEnvironment ch ch1 env envs prs hinv h1
  · exact chatInvariant_unmuteProject ch ch2 pr envs prs hinv h2

/-- C2 witness: the invariant theorem instantiated at concrete records over
the universes `["a", "b"]` and `["p", "q"]`. -/
theorem C2_mutation_invariant_witness :
    chatInvariant (newChatRecord 7 ["a", "b"] ["p", "q"]) ["a", "b"] ["p", "q"] ∧
    chatInvariant (chW2.MuteEnvironments ["b"] ["a", "b"]) ["a", "b"] ["p", "q"] ∧
    chatInvariant (chW2.MuteProjects ["q"] ["p", "q"]) ["a", "b"] ["p", "q"] ∧
    chatInvariant
      { ChatID := 7, AlertEnvironments := ["a", "b"], AlertProjects := ["q"],
        MutedEnvironments := [], MutedProjects := ["p"]} ["a", "b"] ["p", "q"] ∧
    chatInvariant
      { ChatID := 7, AlertEnvironments := ["b"], AlertProjects := ["p", "q"],
        MutedEnvironments := ["a"], MutedProjects := []} ["a", "b"] ["p", "q"] :=
  C2_mutation_invariant 7 ["a", "b"] ["p", "q"] ["b"] ["q"] "a" "p" chW2 _ _
    (by decide) (by decide) (by decide)

/-! ### C8: muting already-muted tags -/

/-- C8: muting tags that are already muted is idempotent on set membership —
the sets of members of `MutedEnvironments` and `MutedProjects` are unchanged,
so repeats never grow the muted sets. -/
theorem C8_mute_idempotent (ch : ChatInfo) (envsToMute prsToMute allEnvs allPrs : List String)
    (hE : ∀ x ∈ envsToMute, x ∈ ch.MutedEnvironments)
    (hP : ∀ x ∈ prsToMute, x ∈ ch.MutedProjects) :
    (ch.MuteEnvironments envsToMute allEnvs).MutedEnvironments.toFinset =
      ch.MutedEnvironments.toFinset ∧
    (ch.MuteProjects prsToMute allPrs).MutedProjects.toFinset =
      ch.MutedProjects.toFinset := by
  constructor
  · ext x
    simp only [ChatInfo.MuteEnvironments, List.mem_toFinset, mem_getUniqueStrings,
      List.mem_append]
    exact ⟨fun h => h.elim id (hE x), Or.inl⟩
  · ext x
    simp only [ChatInfo.MuteProjects, List.mem_toFinset, mem_getUniqueStrings,
      List.mem_append]
    exact ⟨fun h => h.elim id (hP x), Or.inl⟩

/-- C8 witness: re-muting the already muted tags of `chW2`. -/
theorem C8_mute_idempotent_witness :
    (chW2.MuteEnvironments ["a"] ["a", "b"]).MutedEnvironments.toFinset =
      chW2.MutedEnvironments.toFinset ∧
    (chW2.MuteProjects ["p"] ["p", "q"]).MutedProjects.toFinset =
      chW2.MutedProjects.toFinset :=
  C8_mute_idempotent chW2 ["a"] ["p"] ["a", "b"] ["p", "q"] (by decide) (by decide)

/-! ### C9: AddChat / GetChatInfo round trip -/

theorem kvGet_kvPut (db : List (Int × ChatInfo)) (k : Int) (v : ChatInfo) :
    kvGet (kvPut db k v) k = some v := by
  induction db with
  | nil => simp [kvPut, kvGet]
  | cons p rest ih =>
      obtain ⟨k1, v1⟩ := p
      by_cases h : k1 = k
      · simp [kvPut, kvGet, h]
      · simp [kvPut, kvGet, h, ih]

/-- C9: for every prior store contents, `AddChat` followed by `GetChatInfo`
on the same chat ID yields exactly the fresh record — empty muted sets and
alert sets equal to the passed universes.  Because this holds for arbitrary
`db`, it holds in particular when a record for `c` already exists: the old
record is overwritten entirely, last write wins, no merge. -/
theorem C9_addChat_roundtrip (db : List (Int × ChatInfo)) (c : Int)
    (envs prs : List String) :
    GetChatInfo (AddChat db c envs prs) c =
      some { ChatID := c, AlertEnvironments := envs, AlertProjects := prs,
             MutedEnvironments := [], MutedProjects := []} := by
  have h := kvGet_kvPut db c (newChatRecord c envs prs)
  simpa [GetChatInfo, AddChat, newChatRecord] using h

/-! ### C10: AddMessage swallows marshal failures -/

/-- C10: when serialising the appended message list fails, `AddMessage`
returns a nil error (chats.go:63 `return nil`) while leaving the store
unchanged, so a nil return does not guarantee that `GetAllMessages`
afterwards contains the added message. -/
theorem C10_addMessage_silent_marshal_failure (stored : List MessageRec) (m : MessageRec)
    (h : m ∉ stored) :
    (AddMessage stored m false).1 = none ∧
    m ∉ GetAllMessages (AddMessage stored m false).2 :=
  ⟨rfl, h⟩

/-- C10 witness: adding a message to the empty store under a failing
marshal reports success yet does not persist the message. -/
theorem C10_addMessage_silent_marshal_failure_witness :
    (AddMessage [] m10 false).1 = none ∧
    m10 ∉ GetAllMessages (AddMessage [] m10 false).2 :=
  C10_addMessage_silent_marshal_failure [] m10 (by decide)

/-! ### C7: the deletion sweep is a destructive read partitioned by age -/

/-- C7: `GetMessagesForPeriodInMinutes` returns exactly the stored messages
whose age `now - sentAt` is at least `minutes`, and the list written back —
the new stored set — holds exactly the younger messages, which are thereby
retained while the returned ones are removed. -/
theorem C7_sweep_partition (stored : List MessageRec) (now minutes : Rat) :
    (∀ m, m ∈ (GetMessagesForPeriodInMinutes stored now minutes).1 ↔
        m ∈ stored ∧ minutes ≤ now - m.sentAt) ∧
    (∀ m, m ∈ (GetMessagesForPeriodInMinutes stored now minutes).2 ↔
        m ∈ stored ∧ now - m.sentAt < minutes) := by
  constructor <;> intro m <;>
    simp [GetMessagesForPeriodInMinutes, List.mem_filter, not_le]

/-! ### C3 / C4 / C5: webhook fan-out -/

theorem processAlert_nil (e p : List String) (acc : Int → List Alert) (a : Alert) :
    processAlert e p [] acc a = acc :=
  rfl

theorem processAlert_cons (e p : List String) (ch : ChatInfo) (rest : List ChatInfo)
    (acc : Int → List Alert) (a : Alert) :
    processAlert e p (ch :: rest) acc a =
      processAlert e p rest
        (if eligible ch e p a then
          fun c => if c == ch.ChatID then a :: acc ch.ChatID else acc c
        else acc) a :=
  rfl

theorem mem_processAlert (e p : List String) (chats : List ChatInfo)
    (acc : Int → List Alert) (a x : Alert) (c : Int) :
    x ∈ processAlert e p chats acc a c ↔
      x ∈ acc c ∨ (x = a ∧ ∃ ch, ch ∈ chats ∧ ch.ChatID = c ∧ eligible ch e p a = true) := by
  induction chats generalizing acc with
  | nil => simp [processAlert_nil]
  | cons ch rest ih =>
      rw [processAlert_cons, ih]
      by_cases helig : eligible ch e p a = true
      · simp only [helig, if_true]
        by_cases hc : c = ch.ChatID
        · subst hc
          simp only [beq_self_eq_true, if_true, List.mem_cons]
          constructor
          · rintro ((rfl | h) | ⟨rfl, ch2, hm, hid, he⟩)
            · exact Or.inr ⟨rfl, ch, Or.inl rfl, rfl, helig⟩
            · exact Or.inl h
            · exact Or.inr ⟨rfl, ch2, Or.inr hm, hid, he⟩
          · rintro (h | ⟨rfl, ch2, hm, hid, he⟩)
            · exact Or.inl (Or.inr h)
            · rcases hm with rfl | hm2
              · exact Or.inl (Or.inl rfl)
              · exact Or.inr ⟨rfl, ch2, hm2, hid, he⟩
        · have hcb : (c == ch.ChatID) = false := by simpa using hc
          simp only [hcb, Bool.false_eq_true, if_false]
          constructor
          · rintro (h | ⟨rfl, ch2, hm, hid, he⟩)
            · exact Or.inl h
            · exact Or.inr ⟨rfl, ch2, List.mem_cons_of_mem ch hm, hid, he⟩
          · rintro (h | ⟨rfl, ch2, hm, hid, he⟩)
            · exact Or.inl h
            · rcases List.mem_cons.mp hm with rfl | hm2
              · exact absurd hid.symm hc
              · exact Or.inr ⟨rfl, ch2, hm2, hid, he⟩
      · simp only [helig, if_false]
        constructor
        · rintro (h | ⟨rfl, ch2, hm, hid, he⟩)
          · exact Or.inl h
          · exact Or.inr ⟨rfl, ch2, List.mem_cons_of_mem ch hm, hid, he⟩
        · rintro (h | ⟨rfl, ch2, hm, hid, he⟩)
          · exact Or.inl h
          · rcases List.mem_cons.mp hm with rfl | hm2
            · exact absurd he helig
            · exact Or.inr ⟨rfl, ch2, hm2, hid, he⟩

theorem mem_sendWebhookFold (e p : List String) (store : List ChatInfo)
    (alerts : List Alert) (acc : Int → List Alert) (n : Nat) (x : Alert) (c : Int) :
    x ∈ (alerts.foldl (sendWebhookStep e p store) (acc, n)).1 c ↔
      x ∈ acc c ∨
        (x ∈ alerts ∧ ∃ ch, ch ∈ store ∧ ch.ChatID = c ∧ eligible ch e p x = true) := by
  induction alerts generalizing acc n with
  | nil => simp
  | cons a rest ih =>
      rw [List.foldl_cons]
      show x ∈ (rest.foldl (sendWebhookStep e p store)
        (processAlert e p store acc a, n + 1)).1 c ↔ _
      rw [ih, mem_processAlert]
      constructor
      · rintro ((h | ⟨rfl, hch⟩) | ⟨hx, hch⟩)
        · exact Or.inl h
        · exact Or.inr ⟨List.mem_cons_self x rest, hch⟩
        · exact Or.inr ⟨List.mem_cons_of_mem a hx, hch⟩
      · rintro (h | ⟨hx, hch⟩)
        · exact Or.inl (Or.inl h)
        · rcases List.mem_cons.mp hx with rfl | hx2
          · exact Or.inl (Or.inr ⟨rfl, hch⟩)
          · exact Or.inr ⟨hx2, hch⟩

/-- C3: an alert of the batch ends up in the alerts accumulated for a chat ID
iff some stored chat record carries that ID and its `AlertEnvironments` /
`AlertProjects` contain the alert's resolved environment AND resolved project
(`eligible` spells out both `contains` checks over the `resolveTag`-coerced
labels, where a label outside the configured universe resolves to
`"other"`). -/
theorem C3_fanout_eligibility (environments projects : List String)
    (store : List ChatInfo) (alerts : List Alert) (c : Int) (a : Alert) :
    a ∈ (sendWebhookBatch environments projects store alerts).1 c ↔
      a ∈ alerts ∧ ∃ ch, ch ∈ store ∧ ch.ChatID = c ∧
        eligible ch environments projects a = true := by
  have h := mem_sendWebhookFold environments projects store alerts (fun _ => []) 0 a c
  simpa [sendWebhookBatch] using h

theorem sendWebhookFold_reads (e p : List String) (store : List ChatInfo)
    (alerts : List Alert) (acc : Int → List Alert) (n : Nat) :
    (alerts.foldl (sendWebhookStep e p store) (acc, n)).2 = n + alerts.length := by
  induction alerts generalizing acc n with
  | nil => simp
  | cons a rest ih =>
      rw [List.foldl_cons]
      show (rest.foldl (sendWebhookStep e p store)
        (processAlert e p store acc a, n + 1)).2 = _
      rw [ih]
      simp [Nat.add_comm, Nat.add_assoc, Nat.add_left_comm]

/-- C5 (amended): processing a webhook batch performs exactly one
`b.chats.List()` read per alert of the batch — the read happens inside the
per-alert loop, so a batch of `k` alerts causes `k` chat-list reads, not
one. -/
theorem C5_reads_once_per_alert (environments projects : List String)
    (store : List ChatInfo) (alerts : List Alert) :
    (sendWebhookBatch environments projects store alerts).2 = alerts.length := by
  have h := sendWebhookFold_reads environments projects store alerts (fun _ => []) 0
  simpa [sendWebhookBatch] using h

/-- C5 counterexample: a batch of two alerts causes two chat-list reads from
the store, not the single per-batch read the claim states. -/
theorem C5_reads_counterexample :
    (sendWebhookBatch ["e"] ["p"] [chFan] [aFan1, aFan2]).2 = 2 ∧ (2 : Nat) ≠ 1 := by
  decide

theorem processAlert_apply_of_not_mem (e p : List String) (chats : List ChatInfo)
    (acc : Int → List Alert) (a : Alert) (c : Int)
    (h : ∀ ch ∈ chats, ch.ChatID ≠ c) :
    processAlert e p chats acc a c = acc c := by
  induction chats generalizing acc with
  | nil => rfl
  | cons ch rest ih =>
      rw [processAlert_cons]
      have hrest : ∀ ch2 ∈ rest, ch2.ChatID ≠ c := fun ch2 hm =>
        h ch2 (List.mem_cons_of_mem ch hm)
      rw [ih _ hrest]
      by_cases helig : eligible ch e p a = true
      · have hne : (c == ch.ChatID) = false := by
          simpa using fun he => (h ch (List.mem_cons_self ch rest)) he.symm
        simp [helig, hne]
      · simp [helig]

theorem processAlert_apply_self (e p : List String) (chats : List ChatInfo)
    (acc : Int → List Alert) (a : Alert) (ch : ChatInfo) (hch : ch ∈ chats)
    (hnodup : (chats.map ChatInfo.ChatID).Nodup) :
    processAlert e p chats acc a ch.ChatID =
      if eligible ch e p a then a :: acc ch.ChatID else acc ch.ChatID := by
  induction chats generalizing acc with
  | nil => cases hch
  | cons ch0 rest ih =>
      simp only [List.map_cons, List.nodup_cons] at hnodup
      obtain ⟨hnotin, hnodupRest⟩ := hnodup
      rcases List.mem_cons.mp hch with rfl | hmem
      · rw [processAlert_cons]
        have hrest : ∀ ch2 ∈ rest, ch2.ChatID ≠ ch.ChatID := by
          intro ch2 hm heq
          exact hnotin (heq ▸ List.mem_map_of_mem ChatInfo.ChatID hm)
        rw [processAlert_apply_of_not_mem e p rest _ a _ hrest]
        by_cases helig : eligible ch e p a = true
        · simp [helig]
        · simp [helig]
      · rw [processAlert_cons]
        rw [ih _ hmem hnodupRest]
        have hne : ch.ChatID ≠ ch0.ChatID := by
          intro heq
          exact hnotin (heq ▸ List.mem_map_of_mem ChatInfo.ChatID hmem)
        have hacc :
            (if eligible ch0 e p a then
              fun c => if c == ch0.ChatID then a :: acc ch0.ChatID else acc c
            else acc) ch.ChatID = acc ch.ChatID := by
          by_cases helig0 : eligible ch0 e p a = true
          · simp [helig0, hne]
          · simp [helig0]
        rw [hacc]

theorem sendWebhookFold_order (e p : List String) (store : List ChatInfo)
    (ch : ChatInfo) (hch : ch ∈ store) (hnodup : (store.map ChatInfo.ChatID).Nodup)
    (alerts : List Alert) (acc : Int → List Alert) (n : Nat) :
    (alerts.foldl (sendWebhookStep e p store) (acc, n)).1 ch.ChatID =
      (alerts.filter (fun a => eligible ch e p a)).reverse ++ acc ch.ChatID := by
  induction alerts generalizing acc n with
  | nil => simp
  | cons a rest ih =>
      rw [List.foldl_cons]
      show (rest.foldl (sendWebhookStep e p store)
        (processAlert e p store acc a, n + 1)).1 ch.ChatID = _
      rw [ih]
      rw [processAlert_apply_self e p store acc a ch hch hnodup]
      by_cases helig : eligible ch e p a = true
      · simp [helig, List.filter_cons]
      · simp [helig, List.filter_cons]

/-- C4 (amended): the per-chat accumulated list is the REVERSE of the order
in which eligible alerts occur in the batch: each newly eligible alert is
prepended in front of the previously accumulated ones (`data.Alerts` starts
as `[alert]` and the earlier alerts are appended behind it).  No
deduplication is performed: the accumulated list is exactly the reversed
filter of the batch, so repeated alerts appear as often as they occur. -/
theorem C4_reverse_insertion_order (environments projects : List String)
    (store : List ChatInfo) (alerts : List Alert) (ch : ChatInfo)
    (hch : ch ∈ store) (hnodup : (store.map ChatInfo.ChatID).Nodup) :
    (sendWebhookBatch environments projects store alerts).1 ch.ChatID =
      (alerts.filter (fun a => eligible ch environments projects a)).reverse := by
  have h := sendWebhookFold_order environments projects store ch hch hnodup alerts
    (fun _ => []) 0
  simpa [sendWebhookBatch] using h

/-- C4 counterexample: two eligible alerts arriving in the order
`[aFan1, aFan2]` are accumulated for the chat as `[aFan2, aFan1]` — the new
alert is prepended, not appended, so insertion order is not preserved. -/
theorem C4_insertion_order_counterexample :
    (sendWebhookBatch ["e"] ["p"] [chFan] [aFan1, aFan2]).1 1 = [aFan2, aFan1] ∧
    ([aFan2, aFan1] : List Alert) ≠ [aFan1, aFan2] := by
  decide

/-- C4 witness: the reversed-filter characterisation at the concrete two-alert
batch. -/
theorem C4_reverse_insertion_order_witness :
    (sendWebhookBatch ["e"] ["p"] [chFan] [aFan1, aFan2]).1 chFan.ChatID =
      ([aFan1, aFan2].filter (fun a => eligible chFan ["e"] ["p"] a)).reverse :=
  C4_reverse_insertion_order ["e"] ["p"] [chFan] [aFan1, aFan2] chFan
    (by decide) (by decide)

/-! ### C6: message truncation -/

theorem lastIndexNNAux_bound (l : List Nat) :
    ∀ (i : Nat) (best : Option Nat) (j : Nat),
      lastIndexNNAux l i best = some j →
      best = some j ∨ (i ≤ j ∧ j + 2 ≤ i + l.length) := by
  induction l with
  | nil =>
      intro i best j h
      simp only [lastIndexNNAux] at h
      exact Or.inl h
  | cons x rest ih =>
      cases rest with
      | nil =>
          intro i best j h
          simp only [lastIndexNNAux] at h
          exact Or.inl h
      | cons y rest2 =>
          intro i best j h
          rw [lastIndexNNAux] at h
          rcases ih (i + 1) _ j h with hbest | ⟨hle, hlen⟩
          · by_cases hxy : (x == 10 && y == 10) = true
            · rw [if_pos hxy] at hbest
              obtain rfl := (Option.some.inj hbest).symm
              right
              constructor
              · exact Nat.le_refl j
              · simp only [List.length_cons]
                omega
            · rw [if_neg hxy] at hbest
              exact Or.inl hbest
          · right
            constructor
            · omega
            · simp only [List.length_cons] at hlen ⊢
              omega

theorem lastDoubleNewline_bound (s : List Nat) (j : Nat)
    (h : lastDoubleNewline s = some j) : j + 2 ≤ s.length := by
  rcases lastIndexNNAux_bound s 0 none j h with h1 | ⟨_, h2⟩
  · cases h1
  · simpa using h2

/-- C6 (amended): `truncateMessage` leaves messages of at most 4095 bytes
unchanged; a longer message is cut at the last double-newline boundary of its
first 4080 bytes with the snip marker appended — provided that boundary
starts at byte index 2 or later — and the result stays within 4095 bytes;
when there is no double newline in the first 4080 bytes, or its last
occurrence starts at index 0 or 1, the fixed placeholder is returned
instead. -/
theorem C6_truncateMessage_correct (s : List Nat) (i : Nat) :
    (s.length ≤ 4095 → truncateMessage s = s) ∧
    (4095 < s.length → (truncateMessage s).length ≤ 4095) ∧
    (4095 < s.length → lastDoubleNewline (s.take 4080) = some i → 1 < i →
        truncateMessage s = s.take i ++ snip ∧
        (truncateMessage s).length ≤ 4095) ∧
    (4095 < s.length → lastDoubleNewline (s.take 4080) = some i → i ≤ 1 →
        truncateMessage s = messageTooLong) ∧
    (4095 < s.length → lastDoubleNewline (s.take 4080) = none →
        truncateMessage s = messageTooLong) := by
  have hshort : ∀ j, lastDoubleNewline (s.take 4080) = some j → 4095 < s.length →
      (s.take j ++ snip).length ≤ 4095 := by
    intro j hfind hlen
    have hb := lastDoubleNewline_bound (s.take 4080) j hfind
    rw [List.length_take] at hb
    have hj : j ≤ 4078 := by omega
    rw [List.length_append, List.length_take]
    have hsnip : snip.length = 14 := by rfl
    rw [hsnip]
    omega
  refine ⟨?_, ?_, ?_, ?_, ?_⟩
  · intro h
    simp [truncateMessage, Nat.not_lt.mpr h]
  · intro hlen
    rw [truncateMessage, if_pos hlen]
    cases hfind : lastDoubleNewline (s.take 4080) with
    | none =>
        show messageTooLong.length ≤ 4095
        decide
    | some j =>
        show (if 1 < j then s.take j ++ snip else messageTooLong).length ≤ 4095
        by_cases hj : 1 < j
        · rw [if_pos hj]
          exact hshort j hfind hlen
        · rw [if_neg hj]
          decide
  · intro hlen hfind hi
    have heq : truncateMessage s = s.take i ++ snip := by
      rw [truncateMessage, if_pos hlen, hfind]
      show (if 1 < i then s.take i ++ snip else messageTooLong) = s.take i ++ snip
      rw [if_pos hi]
    exact ⟨heq, heq ▸ hshort i hfind hlen⟩
  · intro hlen hfind hi
    rw [truncateMessage, if_pos hlen, hfind]
    show (if 1 < i then s.take i ++ snip else messageTooLong) = messageTooLong
    rw [if_neg (by omega)]
  · intro hlen hfind
    rw [truncateMessage, if_pos hlen, hfind]

theorem lastIndexNNAux_cons_of_head_ne (x : Nat) (l : List Nat) (i : Nat)
    (best : Option Nat) (hx : (x == 10) = false) :
    lastIndexNNAux (x :: l) i best = lastIndexNNAux l (i + 1) best := by
  cases l with
  | nil => rfl
  | cons y rest =>
      rw [lastIndexNNAux]
      simp [hx]

theorem lastIndexNNAux_replicate (x : Nat) (hx : (x == 10) = false) (n : Nat) :
    ∀ (i : Nat) (best : Option Nat), lastIndexNNAux (List.replicate n x) i best = best := by
  induction n with
  | zero => intro i best; rfl
  | succ m ih =>
      intro i best
      rw [List.replicate_succ, lastIndexNNAux_cons_of_head_ne x _ _ _ hx, ih]

theorem lastIndexNNAux_replicate_append (x : Nat) (hx : (x == 10) = false) (n : Nat) :
    ∀ (l : List Nat) (i : Nat) (best : Option Nat),
      lastIndexNNAux (List.replicate n x ++ l) i best = lastIndexNNAux l (i + n) best := by
  induction n with
  | zero => intro l i best; simp
  | succ m ih =>
      intro l i best
      rw [List.replicate_succ, List.cons_append,
        lastIndexNNAux_cons_of_head_ne x _ _ _ hx, ih]
      congr 1
      omega

theorem cex6_take : cex6.take 4080 = 10 :: 10 :: List.replicate 4078 97 := by
  have h1 : cex6.take 4080 = 10 :: 10 :: (List.replicate 5000 97).take 4078 := rfl
  rw [h1, List.take_replicate]
  norm_num

theorem cex6_lastDoubleNewline : lastDoubleNewline (cex6.take 4080) = some 0 := by
  rw [cex6_take]
  show lastIndexNNAux (10 :: 10 :: List.replicate 4078 97) 0 none = some 0
  rw [lastIndexNNAux]
  have h2 : List.replicate 4078 97 = 97 :: List.replicate 4077 97 := rfl
  rw [h2, lastIndexNNAux]
  rw [lastIndexNNAux_cons_of_head_ne 97 _ _ _ rfl,
    lastIndexNNAux_replicate 97 rfl]
  decide

theorem cex6_length : cex6.length = 5002 := by
  simp only [cex6, List.length_cons, List.length_replicate]

/-- C6 counterexample: `cex6` is longer than 4095 bytes and its first 4080
bytes DO contain a double-newline boundary (its last occurrence starts at
index 0), yet the code returns the placeholder rather than cutting at that
boundary and appending the snip marker: the `i > 1` guard also rejects
existing boundaries at indices 0 and 1. -/
theorem C6_boundary_at_start_counterexample :
    4095 < cex6.length ∧
    lastDoubleNewline (cex6.take 4080) = some 0 ∧
    truncateMessage cex6 = messageTooLong ∧
    messageTooLong ≠ cex6.take 0 ++ snip := by
  have hlen : 4095 < cex6.length := by rw [cex6_length]; norm_num
  refine ⟨hlen, cex6_lastDoubleNewline, ?_, ?_⟩
  · rw [truncateMessage, if_pos hlen, cex6_lastDoubleNewline]
    show (if 1 < 0 then cex6.take 0 ++ snip else messageTooLong) = messageTooLong
    norm_num
  · show messageTooLong ≠ [] ++ snip
    decide

theorem w6_take : w6.take 4080 =
    List.replicate 100 97 ++ 10 :: 10 :: List.replicate 3978 98 := by
  have h100 : (4080 : Nat) = (List.replicate 100 97).length + 3980 := by
    simp
  rw [w6, h100, List.take_append]
  have h1 : (10 :: 10 :: List.replicate 5000 98).take 3980 =
      10 :: 10 :: (List.replicate 5000 98).take 3978 := rfl
  rw [h1, List.take_replicate]
  norm_num

theorem w6_lastDoubleNewline : lastDoubleNewline (w6.take 4080) = some 100 := by
  rw [w6_take]
  show lastIndexNNAux (List.replicate 100 97 ++ 10 :: 10 :: List.replicate 3978 98)
    0 none = some 100
  rw [lastIndexNNAux_replicate_append 97 rfl 100]
  rw [lastIndexNNAux]
  have h2 : List.replicate 3978 98 = 98 :: List.replicate 3977 98 := rfl
  rw [h2, lastIndexNNAux]
  rw [lastIndexNNAux_cons_of_head_ne 98 _ _ _ rfl,
    lastIndexNNAux_replicate 98 rfl]
  decide

theorem w6_length_lt : 4095 < w6.length := by
  simp only [w6, List.length_append, List.length_cons, List.length_replicate]
  norm_num

/-- C6 witness: the amended truncation theorem applied to `w6` — the message
is cut at the boundary at index 100 with the snip marker appended, within
the 4095-byte limit. -/
theorem C6_truncateMessage_correct_witness :
    truncateMessage w6 = w6.take 100 ++ snip ∧ (truncateMessage w6).length ≤ 4095 :=
  (C6_truncateMessage_correct w6 100).2.2.1 w6_length_lt w6_lastDoubleNewline
    (by norm_num)

end AlertmanagerBot
